import Mathlib

/-!
Verification of the kinematics and workspace-sampling core of the
VirtualRoboticArm repository, as a shallow embedding of
`assignment1/partb/robot_arm.py` (class `RoboticArm`),
`assignment1/partc/robotic_arm_4dof.py` (classes `Joint` and `RoboticArm4DOF`)
and the area computation of `partb/workspace_visualization.py`
(`WorkspaceVisualizer.analyze_workspace_metrics`).

Floating-point arithmetic is embedded as exact real arithmetic.  The external
optimizer `scipy.optimize.minimize` is not part of the repository; each call
to it is modelled by an abstract `OptResult` (the reported convergence flag,
the final iterate, and the number of objective evaluations), and `result.fun`
— the objective value at `result.x` — is recomputed from `result.x` wherever
the source reads it.  The wall-clock `calculation_times` lists are not
modelled; the `fk_calculations` / `ik_calculations` counters are, so that the
frame conditions on the mutable chain state are meaningful.
-/

set_option maxHeartbeats 1000000
set_option linter.unusedVariables false

/-- Euclidean norm of a planar vector: `np.sqrt(x**2 + y**2)` /
`np.linalg.norm` on a 2-vector. -/
noncomputable def norm2 (p : ℝ × ℝ) : ℝ := Real.sqrt (p.1 ^ 2 + p.2 ^ 2)

/-- Joint kind: the `joint_type` strings `'revolute'` / `'prismatic'` of
`Joint.__init__` as a two-valued type (only these two strings occur in the
repository). -/
inductive JointType where
  | revolute
  | prismatic
deriving DecidableEq, Inhabited

/-- `Joint` of robotic_arm_4dof.py: the kind, the limits (stored unpacked as
`min_limit` / `max_limit`, the only form the methods read) and the current
value. -/
structure Joint where
  joint_type : JointType
  min_limit : ℝ
  max_limit : ℝ
  value : ℝ
deriving Inhabited

/-- `Joint.set_value`: store `value` and report `True` when it lies within
the closed limits, otherwise leave the joint unchanged and report `False`.
The mutation is returned as the first component. -/
noncomputable def Joint.set_value (j : Joint) (v : ℝ) : Joint × Bool :=
  if j.min_limit ≤ v ∧ v ≤ j.max_limit then ({ j with value := v }, true) else (j, false)

/-- `RoboticArm` of partb/robot_arm.py: a planar all-revolute arm.
`num_joints` is `len(link_lengths)` (derived, below). -/
structure RoboticArm where
  link_lengths : List ℝ
  joint_limits : List (ℝ × ℝ)
  joint_angles : List ℝ

/-- `RoboticArm.num_joints = len(link_lengths)`. -/
def RoboticArm.num_joints (arm : RoboticArm) : ℕ := arm.link_lengths.length

/-- `RoboticArm.__init__`: angles start at `np.zeros`, the default limits are
`(-pi, pi)` per joint.  No length validation of any kind is performed. -/
noncomputable def RoboticArm.init (link_lengths : List ℝ)
    (joint_limits : Option (List (ℝ × ℝ))) : RoboticArm :=
  { link_lengths := link_lengths
    joint_limits := joint_limits.getD (List.replicate link_lengths.length (-Real.pi, Real.pi))
    joint_angles := List.replicate link_lengths.length 0 }

/-- Running sums with initial accumulator `acc`; `cumsumFrom 0` is
`np.cumsum`. -/
def cumsumFrom (acc : ℝ) : List ℝ → List ℝ
  | [] => []
  | a :: rest => (acc + a) :: cumsumFrom (acc + a) rest

/-- The position-filling loop of `RoboticArm.forward_kinematics`:
`joint_positions[i+1] = joint_positions[i] + link_lengths[i] * (cos c[i], sin c[i])`
with `c = np.cumsum(joint_angles)`.  Returns the positions after each joint
(the base excluded); the two lists are consumed in lockstep, as the Python
loop indexes both by `i`. -/
noncomputable def pbPositionsAux : List ℝ → List ℝ → ℝ × ℝ → List (ℝ × ℝ)
  | ℓ :: ls, θ :: cs, pos =>
      (pos.1 + ℓ * Real.cos θ, pos.2 + ℓ * Real.sin θ) ::
        pbPositionsAux ls cs (pos.1 + ℓ * Real.cos θ, pos.2 + ℓ * Real.sin θ)
  | _, _, _ => []

/-- `RoboticArm.forward_kinematics`: pure in the source (it touches no field
of `self`); returns `(end_effector_pos, joint_positions)` where
`end_effector_pos = joint_positions[-1]` and `joint_positions[0]` is the base
`(0,0)`.  `joint_angles = none` means the stored angles are used. -/
noncomputable def RoboticArm.forward_kinematics (arm : RoboticArm)
    (joint_angles : Option (List ℝ)) : (ℝ × ℝ) × List (ℝ × ℝ) :=
  let angles := joint_angles.getD arm.joint_angles
  let positions := (0, 0) :: pbPositionsAux arm.link_lengths (cumsumFrom 0 angles) (0, 0)
  (positions.getLastD (0, 0), positions)

/-- Abstract outcome of one `scipy.optimize.minimize` (SLSQP) call: the
reported convergence flag `success`, the final iterate `x`, and the number of
objective evaluations `nfev`. -/
structure OptResult where
  success : Bool
  x : List ℝ
  nfev : ℕ

/-- `RoboticArm.inverse_kinematics`: the SLSQP result is accepted on its
`success` flag alone (no residual check); the joint vector `result.x` is
returned on success and `None` otherwise.  The initial guess (default: the
chain's current `joint_angles`) only seeds the optimizer; `result` stands for
the outcome of that seeded run.  The chain itself is never written. -/
def RoboticArm.inverse_kinematics (arm : RoboticArm) (target_x target_y : ℝ)
    (initial_guess : Option (List ℝ)) (result : OptResult) : Option (List ℝ) :=
  if result.success then some result.x else none

/-- `RoboticArm.is_reachable`:
`min_reach ≤ sqrt(x² + y²) ≤ max_reach` with `max_reach = Σ link_lengths` and
`min_reach = |Σ link_lengths[:-1] − link_lengths[-1]|` (the LAST link, not
the largest).  `getLastD 0` renders Python's `link_lengths[-1]`, total where
Python would raise on an empty list (the chain invariant keeps it
nonempty). -/
noncomputable def RoboticArm.is_reachable (arm : RoboticArm) (x y : ℝ) : Bool :=
  let distance := Real.sqrt (x ^ 2 + y ^ 2)
  let max_reach := arm.link_lengths.sum
  let min_reach := |arm.link_lengths.dropLast.sum - arm.link_lengths.getLastD 0|
  decide (min_reach ≤ distance ∧ distance ≤ max_reach)

/-- `RoboticArm.set_joint_angles`: unconditional overwrite, no validation,
no report. -/
def RoboticArm.set_joint_angles (arm : RoboticArm) (angles : List ℝ) : RoboticArm :=
  { arm with joint_angles := angles }

/-- `RoboticArm4DOF`: the mixed revolute/prismatic arm.  The base position is
`(0,0)`.  `fk_calculations` / `ik_calculations` are the performance counters
the methods bump. -/
structure RoboticArm4DOF where
  base_links : List ℝ
  joints : List Joint
  joint_values : List ℝ
  fk_calculations : ℕ
  ik_calculations : ℕ

/-- `RoboticArm4DOF.__init__`: builds exactly 4 joints from `joint_types[i]`
and `joint_limits[i]`, i = 0..3 — a Python IndexError (modelled as `none`)
when either list has fewer than 4 entries; longer lists are silently
truncated and `base_links` is stored with no length check at all.
`joint_values` collects the joints' initial values (all 0). -/
def RoboticArm4DOF.init (base_links : List ℝ) (joint_types : List JointType)
    (joint_limits : List (ℝ × ℝ)) : Option RoboticArm4DOF :=
  if 4 ≤ joint_types.length ∧ 4 ≤ joint_limits.length then
    let joints := (List.range 4).map fun i =>
      { joint_type := joint_types.getD i JointType.revolute
        min_limit := (joint_limits.getD i (0, 0)).1
        max_limit := (joint_limits.getD i (0, 0)).2
        value := 0 : Joint }
    some { base_links := base_links
           joints := joints
           joint_values := joints.map Joint.value
           fk_calculations := 0
           ik_calculations := 0 }
  else none

/-- One iteration of the `RoboticArm4DOF.forward_kinematics` loop: a revolute
joint first adds its value to the cumulative angle and then advances by
`link_length` along the NEW angle; a prismatic joint advances by its value
along the CURRENT angle, which it leaves unchanged. -/
noncomputable def fk4Step (link_length : ℝ) (j : Joint) (v : ℝ) (pos : ℝ × ℝ) (θ : ℝ) :
    (ℝ × ℝ) × ℝ :=
  match j.joint_type with
  | JointType.revolute =>
      ((pos.1 + link_length * Real.cos (θ + v), pos.2 + link_length * Real.sin (θ + v)), θ + v)
  | JointType.prismatic =>
      ((pos.1 + v * Real.cos θ, pos.2 + v * Real.sin θ), θ)

/-- The `forward_kinematics` loop of the 4-DOF arm over
`enumerate(zip(self.joints, joint_values))`: `i` indexes `base_links`
(`link_length = 1.0` past its end, the source's explicit default).  Returns
the position appended after each joint and the final (position, angle)
state. -/
noncomputable def fk4Aux (base_links : List ℝ) :
    ℕ → List (Joint × ℝ) → ℝ × ℝ → ℝ → List (ℝ × ℝ) × ((ℝ × ℝ) × ℝ)
  | _, [], pos, θ => ([], (pos, θ))
  | i, (j, v) :: rest, pos, θ =>
      let st := fk4Step (base_links.getD i 1) j v pos θ
      let out := fk4Aux base_links (i + 1) rest st.1 st.2
      (st.1 :: out.1, out.2)

/-- `RoboticArm4DOF.forward_kinematics`: zips `self.joints` with the supplied
values (default `none`: the stored `joint_values`); returns
`((end_effector_pos, base :: joint_positions), self)` with the
`fk_calculations` counter bumped — the only field the method writes. -/
noncomputable def RoboticArm4DOF.forward_kinematics (arm : RoboticArm4DOF)
    (joint_values : Option (List ℝ)) : ((ℝ × ℝ) × List (ℝ × ℝ)) × RoboticArm4DOF :=
  let values := joint_values.getD arm.joint_values
  let out := fk4Aux arm.base_links 0 (arm.joints.zip values) (0, 0) 0
  ((out.2.1, (0, 0) :: out.1), { arm with fk_calculations := arm.fk_calculations + 1 })

/-- `RoboticArm4DOF.inverse_kinematics`:
`success = result.success and result.fun < 0.01` (the 1 cm residual cap),
where `result.fun` is the objective `‖FK(result.x) − target‖` at the final
iterate; returns `(success, result.x)` on success and `(False, initial_guess)`
otherwise (the guess defaulting to the chain's current `joint_values`).  It
never raises: every outcome is a returned pair.  The only fields written are
the counters (`ik_calculations` once, `fk_calculations` once per objective
evaluation). -/
noncomputable def RoboticArm4DOF.inverse_kinematics (arm : RoboticArm4DOF)
    (target : ℝ × ℝ) (initial_guess : Option (List ℝ)) (result : OptResult) :
    (Bool × List ℝ) × RoboticArm4DOF :=
  let guess := initial_guess.getD arm.joint_values
  let end_pos := ((arm.forward_kinematics (some result.x)).1).1
  let residual := norm2 (end_pos.1 - target.1, end_pos.2 - target.2)
  let success := result.success && decide (residual < 0.01)
  ((success, if success then result.x else guess),
    { arm with ik_calculations := arm.ik_calculations + 1,
               fk_calculations := arm.fk_calculations + result.nfev })

/-- The per-joint loop of `set_joint_configuration`: every zipped joint gets
`set_value` applied — an in-range value sticks even when a later (or earlier)
value is rejected — and `valid` collects the conjunction of the reports.
Joints beyond the supplied values are untouched. -/
noncomputable def setJointsAux : List Joint → List ℝ → List Joint × Bool
  | js, [] => (js, true)
  | [], _ :: _ => ([], true)
  | j :: js, v :: vs =>
      let r := j.set_value v
      let rest := setJointsAux js vs
      (r.1 :: rest.1, r.2 && rest.2)

/-- `RoboticArm4DOF.set_joint_configuration`: runs the per-joint loop, then
replaces the chain-level `joint_values` vector by the supplied one only when
every zipped value was accepted; returns only the boolean `valid`. -/
noncomputable def RoboticArm4DOF.set_joint_configuration (arm : RoboticArm4DOF)
    (joint_values : List ℝ) : RoboticArm4DOF × Bool :=
  let r := setJointsAux arm.joints joint_values
  if r.2 then ({ arm with joints := r.1, joint_values := joint_values }, true)
  else ({ arm with joints := r.1 }, false)

/-- Spec-side step machine for forward kinematics, exactly as §4.1 words it:
from the base `(0,0)` at orientation `0`, a `(Rotational, ℓ, v)` joint first
advances the cumulative orientation by `v` and then translates by
`ℓ·(cos θ', sin θ')` along the new orientation; a `(Translational, ℓ, v)`
joint translates by `v·(cos θ, sin θ)` along the current orientation, which
it leaves unchanged.  Returns the position after each joint. -/
noncomputable def fkClaimAux : List (JointType × ℝ × ℝ) → ℝ × ℝ → ℝ → List (ℝ × ℝ)
  | [], _, _ => []
  | (JointType.revolute, ℓ, v) :: rest, pos, θ =>
      (pos.1 + ℓ * Real.cos (θ + v), pos.2 + ℓ * Real.sin (θ + v)) ::
        fkClaimAux rest (pos.1 + ℓ * Real.cos (θ + v), pos.2 + ℓ * Real.sin (θ + v)) (θ + v)
  | (JointType.prismatic, _, v) :: rest, pos, θ =>
      (pos.1 + v * Real.cos θ, pos.2 + v * Real.sin θ) ::
        fkClaimAux rest (pos.1 + v * Real.cos θ, pos.2 + v * Real.sin θ) θ

/-- The (kind, link_length, joint_value) triples the 4-DOF loop consumes:
the link of joint `i` is `base_links[i]` with the source's default `1.0` past
the end of `base_links`. -/
def fk4Triples (base_links : List ℝ) : ℕ → List (Joint × ℝ) → List (JointType × ℝ × ℝ)
  | _, [] => []
  | i, (j, v) :: rest => (j.joint_type, base_links.getD i 1, v) :: fk4Triples base_links (i + 1) rest

/-- Modelled from the spec (§3): “min_reach = |largest rotational link length
− sum of all the other rotational link lengths|” — the longest-side-vs-rest
bound the claim states, for an all-rotational chain. -/
noncomputable def minReachClaim (links : List ℝ) : ℝ :=
  |links.foldr max 0 - (links.sum - links.foldr max 0)|

/-- Modelled from the spec (§3): “max_reach = sum of all rotational link
lengths plus sum of all translational joints' max extents”, read off a 4-DOF
arm: the link of revolute joint `i` is `base_links[i]` (default 1), the max
extent of a prismatic joint is its `max_limit`. -/
noncomputable def maxReachClaim (base_links : List ℝ) : ℕ → List Joint → ℝ
  | _, [] => 0
  | i, j :: rest =>
      (match j.joint_type with
       | JointType.revolute => base_links.getD i 1
       | JointType.prismatic => j.max_limit) + maxReachClaim base_links (i + 1) rest

/-! ### Concrete instances used by witnesses and counterexamples -/

/-- A 1-joint revolute 4-DOF-style chain (the loop is generic in the list of
joints), link length 2, limits (-4, 4), at the zero configuration. -/
noncomputable def armW1 : RoboticArm4DOF :=
  { base_links := [2]
    joints := [{ joint_type := JointType.revolute, min_limit := -4, max_limit := 4, value := 0 }]
    joint_values := [0]
    fk_calculations := 0
    ik_calculations := 0 }

/-- A 3-link planar arm with link lengths [3, 1, 1] (largest link first, so
the last link is NOT the largest). -/
noncomputable def armC2 : RoboticArm :=
  { link_lengths := [3, 1, 1], joint_limits := [(-4, 4), (-4, 4), (-4, 4)], joint_angles := [0, 0, 0] }

/-- A single-link planar arm with link length 1. -/
noncomputable def armB1 : RoboticArm :=
  { link_lengths := [1], joint_limits := [(-4, 4)], joint_angles := [0] }

/-- The 4-DOF arm of `create_4dof_arm_configuration` with rational revolute
limits (±10 instead of ±π, which the constructor accepts just the same):
revolute, revolute, prismatic (0..2), revolute over links [2, 1.5, 0, 1]. -/
noncomputable def armC5 : RoboticArm4DOF :=
  { base_links := [2, 1.5, 0, 1]
    joints :=
      [{ joint_type := JointType.revolute, min_limit := -10, max_limit := 10, value := 0 },
       { joint_type := JointType.revolute, min_limit := -10, max_limit := 10, value := 0 },
       { joint_type := JointType.prismatic, min_limit := 0, max_limit := 2, value := 0 },
       { joint_type := JointType.revolute, min_limit := -10, max_limit := 10, value := 0 }]
    joint_values := [0, 0, 0, 0]
    fk_calculations := 0
    ik_calculations := 0 }

theorem norm2_eq_complex_abs (p : ℝ × ℝ) :
    norm2 p = Complex.abs { re := p.1, im := p.2 } := by
  have h : p.1 ^ 2 + p.2 ^ 2 = p.1 * p.1 + p.2 * p.2 := by ring
  rw [norm2, h, Complex.abs_apply, Complex.normSq_mk]

theorem norm2_nonneg (p : ℝ × ℝ) : 0 ≤ norm2 p := Real.sqrt_nonneg _

theorem norm2_add_le (a b c d : ℝ) :
    norm2 (a + c, b + d) ≤ norm2 (a, b) + norm2 (c, d) := by
  have e : ({ re := a + c, im := b + d } : ℂ) = { re := a, im := b } + { re := c, im := d } := by
    apply Complex.ext <;> simp
  rw [norm2_eq_complex_abs, norm2_eq_complex_abs, norm2_eq_complex_abs]
  simp only []
  rw [e]
  exact Complex.abs.add_le _ _

theorem norm2_smul_cos_sin (v θ : ℝ) :
    norm2 (v * Real.cos θ, v * Real.sin θ) = |v| := by
  have h : (v * Real.cos θ) ^ 2 + (v * Real.sin θ) ^ 2 = v ^ 2 := by
    linear_combination v ^ 2 * Real.sin_sq_add_cos_sq θ
  rw [norm2]
  simp only []
  rw [h, Real.sqrt_sq_eq_abs]

theorem norm2_neg (a b : ℝ) : norm2 (-a, -b) = norm2 (a, b) := by
  have h : (-a) ^ 2 + (-b) ^ 2 = a ^ 2 + b ^ 2 := by ring
  rw [norm2, norm2]
  simp only []
  rw [h]

theorem norm2_sub_lower (e t : ℝ × ℝ) :
    norm2 t - norm2 e ≤ norm2 (e.1 - t.1, e.2 - t.2) := by
  have h := norm2_add_le (-(e.1 - t.1)) (-(e.2 - t.2)) e.1 e.2
  have h1 : -(e.1 - t.1) + e.1 = t.1 := by ring
  have h2 : -(e.2 - t.2) + e.2 = t.2 := by ring
  rw [h1, h2, norm2_neg] at h
  have ht : ((t.1, t.2) : ℝ × ℝ) = t := rfl
  have he : ((e.1, e.2) : ℝ × ℝ) = e := rfl
  rw [ht, he] at h
  linarith

/-! ### Forward-kinematics structure lemmas -/

theorem pbPositionsAux_eq_fkClaimAux (links : List ℝ) :
    ∀ (angles : List ℝ) (θ0 : ℝ) (pos : ℝ × ℝ),
      pbPositionsAux links (cumsumFrom θ0 angles) pos =
        fkClaimAux ((links.zip angles).map fun p => (JointType.revolute, p.1, p.2)) pos θ0 := by
  induction links with
  | nil => intro angles θ0 pos; cases angles <;> simp [pbPositionsAux, cumsumFrom, fkClaimAux]
  | cons ℓ ls ih =>
      intro angles θ0 pos
      cases angles with
      | nil => simp [pbPositionsAux, cumsumFrom, fkClaimAux]
      | cons a as =>
          simp only [cumsumFrom, pbPositionsAux, List.zip_cons_cons, List.map_cons, fkClaimAux]
          rw [ih as (θ0 + a)]
          rfl

theorem fk4Aux_fst_eq_fkClaimAux (base : List ℝ) :
    ∀ (l : List (Joint × ℝ)) (i : ℕ) (pos : ℝ × ℝ) (θ : ℝ),
      (fk4Aux base i l pos θ).1 = fkClaimAux (fk4Triples base i l) pos θ := by
  intro l
  induction l with
  | nil => intro i pos θ; simp [fk4Aux, fk4Triples, fkClaimAux]
  | cons hd rest ih =>
      intro i pos θ
      obtain ⟨j, v⟩ := hd
      cases hjt : j.joint_type <;>
        simp only [fk4Aux, fk4Triples, fk4Step, hjt, fkClaimAux] <;>
        rw [ih]

theorem fk4Aux_final_eq_getLastD (base : List ℝ) :
    ∀ (l : List (Joint × ℝ)) (i : ℕ) (pos : ℝ × ℝ) (θ : ℝ),
      (fk4Aux base i l pos θ).2.1 = ((fk4Aux base i l pos θ).1).getLastD pos := by
  intro l
  induction l with
  | nil => intro i pos θ; simp [fk4Aux]
  | cons hd rest ih =>
      intro i pos θ
      obtain ⟨j, v⟩ := hd
      simp only [fk4Aux, List.getLastD_cons]
      rw [ih]

theorem fkClaimAux_length :
    ∀ (l : List (JointType × ℝ × ℝ)) (pos : ℝ × ℝ) (θ : ℝ),
      (fkClaimAux l pos θ).length = l.length := by
  intro l
  induction l with
  | nil => intro pos θ; simp [fkClaimAux]
  | cons hd rest ih =>
      intro pos θ
      obtain ⟨k, ℓ, v⟩ := hd
      cases k <;> simp only [fkClaimAux, List.length_cons] <;> rw [ih]

theorem fk4Triples_length (base : List ℝ) :
    ∀ (l : List (Joint × ℝ)) (i : ℕ), (fk4Triples base i l).length = l.length := by
  intro l
  induction l with
  | nil => intro i; simp [fk4Triples]
  | cons hd rest ih =>
      intro i
      obtain ⟨j, v⟩ := hd
      simp only [fk4Triples, List.length_cons]
      rw [ih]

/-! ### Reach-bound lemmas -/

theorem list_getD_nonneg :
    ∀ (l : List ℝ) (i : ℕ), (∀ x ∈ l, 0 ≤ x) → 0 ≤ l.getD i 1 := by
  intro l
  induction l with
  | nil => intro i h; simp [List.getD]
  | cons a l ih =>
      intro i h
      cases i with
      | zero => exact h a (List.mem_cons_self a l)
      | succ n =>
          simp only [List.getD_cons_succ]
          exact ih n fun x hx => h x (List.mem_cons_of_mem a hx)

theorem norm2_self_sub_self (pos : ℝ × ℝ) : norm2 (pos.1 - pos.1, pos.2 - pos.2) = 0 := by
  simp [norm2]

theorem fk4Aux_norm_le (base : List ℝ) (hb : ∀ x ∈ base, 0 ≤ x) :
    ∀ (l : List (Joint × ℝ)) (i : ℕ) (pos : ℝ × ℝ) (θ : ℝ),
      (∀ p ∈ l, p.1.joint_type = JointType.prismatic →
        0 ≤ p.1.min_limit ∧ p.1.min_limit ≤ p.2 ∧ p.2 ≤ p.1.max_limit) →
      norm2 ((fk4Aux base i l pos θ).2.1.1 - pos.1, (fk4Aux base i l pos θ).2.1.2 - pos.2) ≤
        maxReachClaim base i (l.map Prod.fst) := by
  intro l
  induction l with
  | nil =>
      intro i pos θ hpr
      simp only [fk4Aux, List.map_nil, maxReachClaim]
      rw [norm2_self_sub_self]
  | cons hd rest ih =>
      intro i pos θ hpr
      obtain ⟨j, v⟩ := hd
      have hrest : ∀ p ∈ rest, p.1.joint_type = JointType.prismatic →
          0 ≤ p.1.min_limit ∧ p.1.min_limit ≤ p.2 ∧ p.2 ≤ p.1.max_limit :=
        fun p hp => hpr p (List.mem_cons_of_mem _ hp)
      -- the state after this joint
      cases hjt : j.joint_type with
      | revolute =>
          simp only [fk4Aux, fk4Step, hjt, List.map_cons, maxReachClaim]
          set ℓ := base.getD i 1 with hℓ
          set pos' : ℝ × ℝ := (pos.1 + ℓ * Real.cos (θ + v), pos.2 + ℓ * Real.sin (θ + v)) with hpos'
          have hstep : norm2 (pos'.1 - pos.1, pos'.2 - pos.2) = |ℓ| := by
            have e1 : pos'.1 - pos.1 = ℓ * Real.cos (θ + v) := by rw [hpos']; ring
            have e2 : pos'.2 - pos.2 = ℓ * Real.sin (θ + v) := by rw [hpos']; ring
            rw [e1, e2, norm2_smul_cos_sin]
          have habs : |ℓ| = ℓ := abs_of_nonneg (list_getD_nonneg base i hb)
          have hIH := ih (i + 1) pos' (θ + v) hrest
          set q : ℝ × ℝ := (fk4Aux base (i + 1) rest pos' (θ + v)).2.1 with hq
          have htri : norm2 (q.1 - pos.1, q.2 - pos.2) ≤
              norm2 (q.1 - pos'.1, q.2 - pos'.2) + norm2 (pos'.1 - pos.1, pos'.2 - pos.2) := by
            have h := norm2_add_le (q.1 - pos'.1) (q.2 - pos'.2) (pos'.1 - pos.1) (pos'.2 - pos.2)
            have e1 : q.1 - pos'.1 + (pos'.1 - pos.1) = q.1 - pos.1 := by ring
            have e2 : q.2 - pos'.2 + (pos'.2 - pos.2) = q.2 - pos.2 := by ring
            rw [e1, e2] at h
            exact h
          calc norm2 (q.1 - pos.1, q.2 - pos.2)
              ≤ norm2 (q.1 - pos'.1, q.2 - pos'.2) + norm2 (pos'.1 - pos.1, pos'.2 - pos.2) := htri
            _ ≤ maxReachClaim base (i + 1) (rest.map Prod.fst) + |ℓ| := by
                rw [hstep]; exact add_le_add_right hIH _
            _ = ℓ + maxReachClaim base (i + 1) (rest.map Prod.fst) := by rw [habs]; ring
      | prismatic =>
          simp only [fk4Aux, fk4Step, hjt, List.map_cons, maxReachClaim]
          have hvr := hpr (j, v) (List.mem_cons_self _ _) hjt
          set pos' : ℝ × ℝ := (pos.1 + v * Real.cos θ, pos.2 + v * Real.sin θ) with hpos'
          have hstep : norm2 (pos'.1 - pos.1, pos'.2 - pos.2) = |v| := by
            have e1 : pos'.1 - pos.1 = v * Real.cos θ := by rw [hpos']; ring
            have e2 : pos'.2 - pos.2 = v * Real.sin θ := by rw [hpos']; ring
            rw [e1, e2, norm2_smul_cos_sin]
          have habs : |v| ≤ j.max_limit := by
            rcases hvr with ⟨h0, h1, h2⟩
            rw [abs_of_nonneg (le_trans h0 h1)]
            exact h2
          have hIH := ih (i + 1) pos' θ hrest
          set q : ℝ × ℝ := (fk4Aux base (i + 1) rest pos' θ).2.1 with hq
          have htri : norm2 (q.1 - pos.1, q.2 - pos.2) ≤
              norm2 (q.1 - pos'.1, q.2 - pos'.2) + norm2 (pos'.1 - pos.1, pos'.2 - pos.2) := by
            have h := norm2_add_le (q.1 - pos'.1) (q.2 - pos'.2) (pos'.1 - pos.1) (pos'.2 - pos.2)
            have e1 : q.1 - pos'.1 + (pos'.1 - pos.1) = q.1 - pos.1 := by ring
            have e2 : q.2 - pos'.2 + (pos'.2 - pos.2) = q.2 - pos.2 := by ring
            rw [e1, e2] at h
            exact h
          calc norm2 (q.1 - pos.1, q.2 - pos.2)
              ≤ norm2 (q.1 - pos'.1, q.2 - pos'.2) + norm2 (pos'.1 - pos.1, pos'.2 - pos.2) := htri
            _ ≤ maxReachClaim base (i + 1) (rest.map Prod.fst) + |v| := by
                rw [hstep]; exact add_le_add_right hIH _
            _ ≤ j.max_limit + maxReachClaim base (i + 1) (rest.map Prod.fst) := by
                have := habs; linarith

/-! ### Grid lemmas -/

/-- C1: forward kinematics starts at the base (0,0) with cumulative
orientation 0 and processes the joints in order — a Rotational joint first
adds its value to the orientation and then translates by
`link_length·(cos θ, sin θ)` along the NEW orientation, a Translational joint
translates by `joint_value·(cos θ, sin θ)` along the CURRENT orientation,
leaving it unchanged — and returns the final end-effector position together
with the ordered list of exactly N+1 joint positions beginning with the base.
Stated for the mixed-joint 4-DOF loop (`positions = base :: claim machine`,
length, head, and `end = last`), and for the 3-link arm's `np.cumsum`
formulation, which is proved to agree with the same sequential machine on
all-Rotational chains. -/
theorem C1_forward_kinematics (arm4 : RoboticArm4DOF) (values : List ℝ)
    (hN : 1 ≤ arm4.joints.length) (hlen : arm4.joints.length = values.length) :
    ((arm4.forward_kinematics (some values)).1).2 =
        (0, 0) :: fkClaimAux (fk4Triples arm4.base_links 0 (arm4.joints.zip values)) (0, 0) 0
    ∧ (((arm4.forward_kinematics (some values)).1).2).length = values.length + 1
    ∧ (((arm4.forward_kinematics (some values)).1).2).head? = some (0, 0)
    ∧ ((arm4.forward_kinematics (some values)).1).1 =
        (((arm4.forward_kinematics (some values)).1).2).getLastD (0, 0)
    ∧ ∀ (armB : RoboticArm) (angles : List ℝ),
        armB.link_lengths.length = angles.length →
        (armB.forward_kinematics (some angles)).2 =
            (0, 0) :: fkClaimAux ((armB.link_lengths.zip angles).map
              (fun p => (JointType.revolute, p.1, p.2))) (0, 0) 0
        ∧ (armB.forward_kinematics (some angles)).1 =
            ((armB.forward_kinematics (some angles)).2).getLastD (0, 0) := by
  refine ⟨?_, ?_, ?_, ?_, ?_⟩
  · simp only [RoboticArm4DOF.forward_kinematics, Option.getD_some]
    rw [fk4Aux_fst_eq_fkClaimAux]
  · simp only [RoboticArm4DOF.forward_kinematics, Option.getD_some, List.length_cons]
    rw [fk4Aux_fst_eq_fkClaimAux, fkClaimAux_length, fk4Triples_length, List.length_zip,
      hlen, min_self]
  · simp only [RoboticArm4DOF.forward_kinematics, Option.getD_some, List.head?_cons]
  · simp only [RoboticArm4DOF.forward_kinematics, Option.getD_some, List.getLastD_cons]
    rw [fk4Aux_final_eq_getLastD]
  · intro armB angles h
    constructor
    · simp only [RoboticArm.forward_kinematics, Option.getD_some]
      rw [pbPositionsAux_eq_fkClaimAux]
    · rfl

/-- Witness for C1 at the one-joint chain `armW1` with joint vector [0]. -/
theorem C1_forward_kinematics_witness :
    1 ≤ armW1.joints.length ∧ armW1.joints.length = [(0 : ℝ)].length ∧
      ((armW1.forward_kinematics (some [0])).1).2 =
        (0, 0) :: fkClaimAux (fk4Triples armW1.base_links 0 (armW1.joints.zip [0])) (0, 0) 0 :=
  ⟨by simp [armW1], by simp [armW1],
    (C1_forward_kinematics armW1 [0] (by simp [armW1]) (by simp [armW1])).1⟩

/-- C2 counterexample: for the chain with link lengths [3, 1, 1] the code's
oracle rejects the point (2, 0) (its `min_reach` is `|(3+1) − 1| = 3`, taken
against the LAST link), although the claim's longest-side-vs-rest bound
`|3 − (1+1)| = 1` together with `max_reach = 5` admits it
(`1 ≤ ‖(2,0)‖ = 2 ≤ 5`). -/
theorem C2_counterexample :
    armC2.is_reachable 2 0 = false
    ∧ minReachClaim armC2.link_lengths ≤ Real.sqrt ((2 : ℝ) ^ 2 + 0 ^ 2)
    ∧ Real.sqrt ((2 : ℝ) ^ 2 + 0 ^ 2) ≤ armC2.link_lengths.sum := by
  have hs : Real.sqrt ((2 : ℝ) ^ 2 + 0 ^ 2) = 2 := by
    rw [show ((2 : ℝ) ^ 2 + 0 ^ 2) = 2 ^ 2 by norm_num]
    exact Real.sqrt_sq (by norm_num)
  have hdrop : (([3, 1, 1] : List ℝ).dropLast) = [3, 1] := rfl
  have hdsum : (([3, 1] : List ℝ).sum) = 4 := by
    simp only [List.sum_cons, List.sum_nil]; norm_num
  have hlast : (([3, 1, 1] : List ℝ).getLastD 0) = 1 := rfl
  have hsum : (([3, 1, 1] : List ℝ).sum) = 5 := by
    simp only [List.sum_cons, List.sum_nil]; norm_num
  have hmax : (([3, 1, 1] : List ℝ).foldr max 0) = 3 := by
    show max 3 (max 1 (max (1 : ℝ) 0)) = 3
    rw [max_eq_left (by norm_num : (0 : ℝ) ≤ 1), max_self,
      max_eq_left (by norm_num : (1 : ℝ) ≤ 3)]
  refine ⟨?_, ?_, ?_⟩
  · simp only [RoboticArm.is_reachable, armC2, decide_eq_false_iff_not]
    rw [hs, hdrop, hdsum, hlast]
    intro hcon
    have h1 := hcon.1
    rw [show |(4 : ℝ) - 1| = 3 by rw [show (4 : ℝ) - 1 = 3 by norm_num]; exact abs_of_pos (by norm_num)] at h1
    norm_num at h1
  · rw [hs]
    simp only [minReachClaim, armC2]
    rw [hmax, hsum]
    rw [show |(3 : ℝ) - (5 - 3)| = 1 by rw [show (3 : ℝ) - (5 - 3) = 1 by norm_num]; exact abs_of_pos (by norm_num)]
    norm_num
  · rw [hs]
    simp only [armC2]
    rw [hsum]
    norm_num

/-- C2 amended: the oracle returns true iff
`min_reach ≤ sqrt(x²+y²) ≤ max_reach`, where `max_reach` is the sum of all
link lengths and `min_reach = |Σ link_lengths[:-1] − link_lengths[-1]|` — the
absolute difference between the LAST link and the sum of the others, not the
largest one (the two agree only when the last link is extremal in that
sense). -/
theorem C2_is_reachable_amended (arm : RoboticArm) (x y : ℝ) :
    arm.is_reachable x y = true ↔
      |arm.link_lengths.dropLast.sum - arm.link_lengths.getLastD 0| ≤ Real.sqrt (x ^ 2 + y ^ 2)
        ∧ Real.sqrt (x ^ 2 + y ^ 2) ≤ arm.link_lengths.sum := by
  simp [RoboticArm.is_reachable]

/-- C4: under the 4-DOF tolerance policy, `inverse_kinematics` reports
success iff the optimizer reported convergence AND the residual
`‖FK(result.x) − target‖` is strictly below 0.01; any failure yields the
no-solution pair `(False, initial guess)`; the 3-link arm returns `None`
exactly when its optimizer did not converge, and `result.x` on convergence.
Both embeddings are total functions: no exception path exists. -/
theorem C4_ik_policy (arm4 : RoboticArm4DOF) (target : ℝ × ℝ) (guess : Option (List ℝ))
    (r : OptResult) :
    (((arm4.inverse_kinematics target guess r).1).1 = true ↔
      r.success = true ∧
        norm2 ((((arm4.forward_kinematics (some r.x)).1).1).1 - target.1,
               (((arm4.forward_kinematics (some r.x)).1).1).2 - target.2) < 0.01)
    ∧ (((arm4.inverse_kinematics target guess r).1).1 = false →
        (arm4.inverse_kinematics target guess r).1 = (false, guess.getD arm4.joint_values))
    ∧ ∀ (armB : RoboticArm) (tx ty : ℝ) (g : Option (List ℝ)) (rb : OptResult),
        (armB.inverse_kinematics tx ty g rb = none ↔ rb.success = false)
        ∧ (rb.success = true → armB.inverse_kinematics tx ty g rb = some rb.x) := by
  refine ⟨?_, ?_, ?_⟩
  · simp only [RoboticArm4DOF.inverse_kinematics, Bool.and_eq_true, decide_eq_true_eq]
  · intro hf
    simp only [RoboticArm4DOF.inverse_kinematics] at hf ⊢
    rw [hf]
    simp
  · intro armB tx ty g rb
    constructor
    · simp only [RoboticArm.inverse_kinematics]
      cases rb.success <;> simp
    · intro h
      simp [RoboticArm.inverse_kinematics, h]

/-- C8: an `inverse_kinematics` call leaves the chain's joint state exactly
as it was — the stored `joint_values` vector, every joint's stored value
(the whole `joints` list), and the geometry are unchanged, success or not;
only the performance counters move (shown for the ik counter, so the frame
statement is not vacuous).  `forward_kinematics` likewise never touches the
joint state.  The partb arm's solver takes the chain only as input and
returns no chain at all, so there is nothing it could mutate. -/
theorem C8_ik_frame (arm4 : RoboticArm4DOF) (target : ℝ × ℝ) (guess : Option (List ℝ))
    (r : OptResult) :
    ((arm4.inverse_kinematics target guess r).2.joints = arm4.joints)
    ∧ ((arm4.inverse_kinematics target guess r).2.joint_values = arm4.joint_values)
    ∧ ((arm4.inverse_kinematics target guess r).2.base_links = arm4.base_links)
    ∧ ((arm4.inverse_kinematics target guess r).2.ik_calculations = arm4.ik_calculations + 1)
    ∧ ∀ v : Option (List ℝ),
        (arm4.forward_kinematics v).2.joints = arm4.joints
        ∧ (arm4.forward_kinematics v).2.joint_values = arm4.joint_values := by
  refine ⟨?_, ?_, ?_, ?_, ?_⟩ <;>
    simp [RoboticArm4DOF.inverse_kinematics, RoboticArm4DOF.forward_kinematics]

/-- C10: whenever the 4-DOF `inverse_kinematics` fails, the returned joint
vector is exactly the initial guess (the chain's current `joint_values` when
no guess was supplied), not the optimizer's iterate; and a caller that
commits that vector anyway (a successful `set_joint_configuration`) leaves
the chain's `joint_values` at the guess configuration. -/
theorem C10_ik_failure_returns_guess (arm4 : RoboticArm4DOF) (target : ℝ × ℝ)
    (guess : Option (List ℝ)) (r : OptResult)
    (hfail : ((arm4.inverse_kinematics target guess r).1).1 = false) :
    ((arm4.inverse_kinematics target guess r).1).2 = guess.getD arm4.joint_values
    ∧ (guess = none → ((arm4.inverse_kinematics target guess r).1).2 = arm4.joint_values)
    ∧ ((arm4.set_joint_configuration (((arm4.inverse_kinematics target guess r).1).2)).2 = true →
        ((arm4.set_joint_configuration (((arm4.inverse_kinematics target guess r).1).2)).1).joint_values =
          guess.getD arm4.joint_values) := by
  have h1 : ((arm4.inverse_kinematics target guess r).1).2 = guess.getD arm4.joint_values := by
    simp only [RoboticArm4DOF.inverse_kinematics] at hfail ⊢
    rw [hfail]
    simp
  have hset : ∀ vs : List ℝ, (arm4.set_joint_configuration vs).2 = true →
      ((arm4.set_joint_configuration vs).1).joint_values = vs := by
    intro vs h
    by_cases hv : (setJointsAux arm4.joints vs).2 = true
    · simp [RoboticArm4DOF.set_joint_configuration, if_pos hv]
    · simp [RoboticArm4DOF.set_joint_configuration, if_neg hv] at h
  refine ⟨h1, fun hg => ?_, fun hcommit => ?_⟩
  · rw [h1, hg, Option.getD_none]
  · rw [hset _ hcommit, h1]

/-- Witness for C10: a non-converged optimizer outcome at the source's 4-DOF
configuration; the returned vector is the chain's current joint values. -/
theorem C10_ik_failure_returns_guess_witness :
    ((armC5.inverse_kinematics (3, 2) none { success := false, x := [0, 0, 0, 0], nfev := 0 }).1).2 =
      armC5.joint_values :=
  (C10_ik_failure_returns_guess armC5 (3, 2) none { success := false, x := [0, 0, 0, 0], nfev := 0 }
    (by simp [RoboticArm4DOF.inverse_kinematics])).2.1 rfl

/-! ### Setter lemmas -/

theorem Joint.set_value_snd (j : Joint) (v : ℝ) :
    (j.set_value v).2 = true ↔ (j.min_limit ≤ v ∧ v ≤ j.max_limit) := by
  simp only [Joint.set_value]
  split <;> simp_all

theorem setJointsAux_snd (js : List Joint) :
    ∀ vs : List ℝ, (setJointsAux js vs).2 = true ↔
      ∀ p ∈ js.zip vs, p.1.min_limit ≤ p.2 ∧ p.2 ≤ p.1.max_limit := by
  induction js with
  | nil => intro vs; cases vs <;> simp [setJointsAux]
  | cons j js ih =>
      intro vs
      cases vs with
      | nil => simp [setJointsAux]
      | cons v vs =>
          simp only [setJointsAux, Bool.and_eq_true, List.zip_cons_cons, List.mem_cons]
          rw [Joint.set_value_snd, ih vs]
          constructor
          · rintro ⟨h1, h2⟩ p hp
            rcases hp with rfl | hp
            · exact h1
            · exact h2 p hp
          · intro h
            exact ⟨h (j, v) (Or.inl rfl), fun p hp => h p (Or.inr hp)⟩

theorem setJointsAux_getElem (js : List Joint) :
    ∀ (vs : List ℝ) (k : ℕ),
      ((setJointsAux js vs).1)[k]? =
        match js[k]?, vs[k]? with
        | some j, some v => some (j.set_value v).1
        | some j, none => some j
        | none, _ => none := by
  induction js with
  | nil =>
      intro vs k
      cases vs <;> simp [setJointsAux]
  | cons j js ih =>
      intro vs k
      cases vs with
      | nil => cases h : (j :: js)[k]? <;> simp [setJointsAux, h]
      | cons v vs =>
          cases k with
          | zero => simp [setJointsAux]
          | succ n => simp [setJointsAux, ih vs n]

/-- C5 counterexample: at the source 4-DOF configuration, the call
`set_joint_configuration [1, 0.5, 5, 0]` is rejected (the prismatic joint's
range is [0, 2] and 5 is outside it), yet joint 0's stored value HAS changed
from 0 to 1 — the loop applied `set_value` to every in-range joint before
reporting failure, so the claimed all-or-nothing behaviour does not hold. -/
theorem C5_counterexample :
    (armC5.set_joint_configuration [1, 0.5, 5, 0]).2 = false
    ∧ (((armC5.set_joint_configuration [1, 0.5, 5, 0]).1.joints)[0]? =
        some { joint_type := JointType.revolute, min_limit := -10, max_limit := 10, value := 1 })
    ∧ ((armC5.joints)[0]? =
        some { joint_type := JointType.revolute, min_limit := -10, max_limit := 10, value := 0 }) := by
  refine ⟨?_, ?_, ?_⟩ <;>
    norm_num [RoboticArm4DOF.set_joint_configuration, setJointsAux, Joint.set_value, armC5]

/-- C5 amended: the setter is atomic only at the chain level — the
`joint_values` vector is replaced iff every zipped value is in range, and the
report is exactly that conjunction — but it is NOT atomic per joint: each
zipped joint's stored value is updated individually whenever that value is in
its own range, regardless of the other joints, and joints beyond the supplied
vector are untouched.  The report is a single boolean; it does not say which
joints were rejected.  The partb `set_joint_angles` validates nothing and
always commits. -/
theorem C5_set_joint_values_amended (arm4 : RoboticArm4DOF) (vs : List ℝ) :
    ((arm4.set_joint_configuration vs).2 = true ↔
      ∀ p ∈ arm4.joints.zip vs, p.1.min_limit ≤ p.2 ∧ p.2 ≤ p.1.max_limit)
    ∧ ((arm4.set_joint_configuration vs).1.joint_values =
        if (arm4.set_joint_configuration vs).2 then vs else arm4.joint_values)
    ∧ ((arm4.set_joint_configuration vs).1.joints = (setJointsAux arm4.joints vs).1)
    ∧ (∀ k : ℕ, ((arm4.set_joint_configuration vs).1.joints)[k]? =
        match arm4.joints[k]?, vs[k]? with
        | some j, some v => some (j.set_value v).1
        | some j, none => some j
        | none, _ => none)
    ∧ ∀ (armB : RoboticArm) (a : List ℝ), (armB.set_joint_angles a).joint_angles = a := by
  have hjoints : (arm4.set_joint_configuration vs).1.joints = (setJointsAux arm4.joints vs).1 := by
    by_cases hv : (setJointsAux arm4.joints vs).2 = true
    · simp [RoboticArm4DOF.set_joint_configuration, if_pos hv]
    · simp [RoboticArm4DOF.set_joint_configuration, if_neg hv]
  have hsnd : (arm4.set_joint_configuration vs).2 = (setJointsAux arm4.joints vs).2 := by
    by_cases hv : (setJointsAux arm4.joints vs).2 = true
    · rw [hv]
      simp [RoboticArm4DOF.set_joint_configuration, if_pos hv]
    · have hv' : (setJointsAux arm4.joints vs).2 = false := by
        cases h : (setJointsAux arm4.joints vs).2
        · rfl
        · exact absurd h hv
      rw [hv']
      simp [RoboticArm4DOF.set_joint_configuration, if_neg hv]
  refine ⟨?_, ?_, hjoints, ?_, ?_⟩
  · rw [hsnd]
    exact setJointsAux_snd arm4.joints vs
  · by_cases hv : (setJointsAux arm4.joints vs).2 = true
    · simp [RoboticArm4DOF.set_joint_configuration, if_pos hv, hsnd, hv]
    · simp [RoboticArm4DOF.set_joint_configuration, if_neg hv, hsnd]
  · intro k
    rw [hjoints]
    exact setJointsAux_getElem arm4.joints vs k
  · intro armB a
    rfl

/-- C9 counterexample: a 4-DOF chain whose `base_links` list has length 1
against 4 joints constructs successfully (no failure is signalled), and the
partb constructor accepts a joint-limit list of length 1 against 2 links —
mismatched list lengths do NOT fail at construction time. -/
theorem C9_counterexample :
    (RoboticArm4DOF.init [2]
        [JointType.revolute, JointType.revolute, JointType.revolute, JointType.revolute]
        [(-1, 1), (-1, 1), (-1, 1), (-1, 1)]).isSome = true
    ∧ (RoboticArm.init [1, 2] (some [(-1, 1)])).link_lengths.length = 2
    ∧ (RoboticArm.init [1, 2] (some [(-1, 1)])).joint_limits.length = 1 := by
  refine ⟨?_, ?_, ?_⟩
  · norm_num [RoboticArm4DOF.init]
  · simp [RoboticArm.init]
  · simp [RoboticArm.init]

/-- C9 amended: the 4-DOF constructor fails at construction time exactly when
the joint-kind list or the joint-limit list has fewer than 4 entries (the
Python IndexError while building the joints); a mismatched `base_links` list
of any length is accepted silently (forward kinematics later substitutes the
default link length 1.0), and the partb constructor stores both lists with no
validation whatsoever. -/
theorem C9_construction_amended (b : List ℝ) (t : List JointType) (l : List (ℝ × ℝ)) :
    ((RoboticArm4DOF.init b t l).isSome = true ↔ 4 ≤ t.length ∧ 4 ≤ l.length)
    ∧ ∀ (links : List ℝ) (lims : List (ℝ × ℝ)),
        (RoboticArm.init links (some lims)).link_lengths = links
        ∧ (RoboticArm.init links (some lims)).joint_limits = lims := by
  constructor
  · by_cases h : 4 ≤ t.length ∧ 4 ≤ l.length
    · simp [RoboticArm4DOF.init, if_pos h, h]
    · simp [RoboticArm4DOF.init, if_neg h, h]
  · intro links lims
    exact ⟨rfl, rfl⟩

/-- End-effector bound from the base: the 4-DOF loop started at the base
`(0,0)`, orientation 0. -/
theorem fk4_end_norm_le (base : List ℝ) (hb : ∀ x ∈ base, 0 ≤ x)
    (l : List (Joint × ℝ))
    (hpr : ∀ p ∈ l, p.1.joint_type = JointType.prismatic →
      0 ≤ p.1.min_limit ∧ p.1.min_limit ≤ p.2 ∧ p.2 ≤ p.1.max_limit) :
    norm2 ((fk4Aux base 0 l (0, 0) 0).2.1) ≤ maxReachClaim base 0 (l.map Prod.fst) := by
  have h := fk4Aux_norm_le base hb l 0 (0, 0) 0 hpr
  simpa using h

/-- C6 counterexample: the 3-link solver accepts the optimizer's convergence
flag with no residual check, so at the single-link chain `armB1`
(`max_reach = Σ links + no translational extents = 1`) and the target (5, 0)
— distance 5, far beyond max_reach — a converged SLSQP outcome (the
constrained minimum really is at θ = 0, where the objective is stationary)
makes `inverse_kinematics` return the joint vector [0] instead of failing:
“inverse kinematics at such a target must always fail” does not hold as
stated. -/
theorem C6_counterexample :
    armB1.inverse_kinematics 5 0 none { success := true, x := [0], nfev := 0 } = some [0]
    ∧ Real.sqrt ((5 : ℝ) ^ 2 + 0 ^ 2) = 5
    ∧ armB1.link_lengths.sum < 5 := by
  refine ⟨?_, ?_, ?_⟩
  · simp [RoboticArm.inverse_kinematics]
  · rw [show ((5 : ℝ) ^ 2 + 0 ^ 2) = 5 ^ 2 by norm_num]
    exact Real.sqrt_sq (by norm_num)
  · simp only [armB1, List.sum_cons, List.sum_nil]
    norm_num

/-- C6 amended: for the mixed 4-DOF chain, under the spec's own invariant
that link lengths are nonnegative and provided every translational joint's
range has a nonnegative lower bound (as in the source configuration
(0, 2)), any joint vector whose translational values are in range puts the
end effector within `max_reach = Σ rotational links + Σ translational
max_limits` of the base; consequently no such configuration coincides with a
target strictly beyond `max_reach`; and the 4-DOF `inverse_kinematics`
(0.01 residual policy) is guaranteed to fail whenever the target's distance
is at least `max_reach + 0.01` and the optimizer's returned vector keeps the
translational values in range — within `(max_reach, max_reach + 0.01)`
success remains possible, as the counterexample's missing-residual-check
sibling shows. -/
theorem C6_reach_bound_amended (arm4 : RoboticArm4DOF) (values : List ℝ)
    (hb : ∀ x ∈ arm4.base_links, 0 ≤ x)
    (hpr : ∀ p ∈ arm4.joints.zip values, p.1.joint_type = JointType.prismatic →
      0 ≤ p.1.min_limit ∧ p.1.min_limit ≤ p.2 ∧ p.2 ≤ p.1.max_limit)
    (hlen : arm4.joints.length = values.length) :
    norm2 (((arm4.forward_kinematics (some values)).1).1) ≤
        maxReachClaim arm4.base_links 0 arm4.joints
    ∧ (∀ target : ℝ × ℝ, maxReachClaim arm4.base_links 0 arm4.joints < norm2 target →
        ((arm4.forward_kinematics (some values)).1).1 ≠ target)
    ∧ ∀ (target : ℝ × ℝ) (guess : Option (List ℝ)) (r : OptResult),
        maxReachClaim arm4.base_links 0 arm4.joints + 0.01 ≤ norm2 target →
        r.x.length = arm4.joints.length →
        (∀ p ∈ arm4.joints.zip r.x, p.1.joint_type = JointType.prismatic →
          0 ≤ p.1.min_limit ∧ p.1.min_limit ≤ p.2 ∧ p.2 ≤ p.1.max_limit) →
        ((arm4.inverse_kinematics target guess r).1).1 = false := by
  have hbound : norm2 (((arm4.forward_kinematics (some values)).1).1) ≤
      maxReachClaim arm4.base_links 0 arm4.joints := by
    have h := fk4_end_norm_le arm4.base_links hb (arm4.joints.zip values) hpr
    rw [List.map_fst_zip _ _ (le_of_eq hlen)] at h
    simpa only [RoboticArm4DOF.forward_kinematics, Option.getD_some] using h
  refine ⟨hbound, fun target hlt heq => ?_, fun target guess r hfar hrlen hrpr => ?_⟩
  · rw [heq] at hbound
    exact absurd hbound (not_le.mpr hlt)
  · have hfk : norm2 (((arm4.forward_kinematics (some r.x)).1).1) ≤
        maxReachClaim arm4.base_links 0 arm4.joints := by
      have h := fk4_end_norm_le arm4.base_links hb (arm4.joints.zip r.x) hrpr
      rw [List.map_fst_zip _ _ (le_of_eq hrlen.symm)] at h
      simpa only [RoboticArm4DOF.forward_kinematics, Option.getD_some] using h
    have hres : ¬ (norm2 ((((arm4.forward_kinematics (some r.x)).1).1).1 - target.1,
        (((arm4.forward_kinematics (some r.x)).1).1).2 - target.2) < 0.01) := by
      have h2 := norm2_sub_lower (((arm4.forward_kinematics (some r.x)).1).1) target
      intro hcon
      linarith
    simp only [RoboticArm4DOF.inverse_kinematics]
    rw [decide_eq_false hres]
    simp

/-- Witness for C6's amended bound at the source 4-DOF configuration, all
joints at zero. -/
theorem C6_reach_bound_amended_witness :
    norm2 (((armC5.forward_kinematics (some [0, 0, 0, 0])).1).1) ≤
      maxReachClaim armC5.base_links 0 armC5.joints :=
  (C6_reach_bound_amended armC5 [0, 0, 0, 0]
    (by intro x hx; simp [armC5] at hx; rcases hx with rfl | rfl | rfl | rfl <;> norm_num)
    (by
      intro p hp hpt
      simp only [armC5, List.zip_cons_cons, List.zip_nil_right, List.mem_cons,
        List.not_mem_nil, or_false] at hp
      rcases hp with rfl | rfl | rfl | rfl <;> simp_all)
    (by simp [armC5])).1

